import Mathlib

/-!
# Verification of tcprp (layer-4/7 multiplexing reverse proxy)

Shallow embedding of the connection-processing pipeline of the tcprp
repository: protocol sniffing, path routing, per-IP token-bucket rate
limiting with cooldown, bidirectional copying, keep-alive decision,
domain trie, byte-accounting metrics, and configuration loading.
Each definition is translated from the corresponding Go function of the
repository (the file and symbol are named in its doc comment).
-/

set_option autoImplicit false

namespace Tcprp

/-- A byte, as it appears in a Go `[]byte` buffer. -/
abbrev Byte := Fin 256

/-- `strings.HasPrefix` / `bytes.HasPrefix` on byte lists: `startsWithL l p`
is true iff `p` is an initial segment of `l`. -/
def startsWithL {α : Type} [DecidableEq α] : List α → List α → Bool
  | _, [] => true
  | [], _ :: _ => false
  | c :: t, p :: ps => c = p && startsWithL t ps

/-- `strings.Contains` on byte lists: `hasSubL l sub` is true iff `sub`
occurs as a contiguous segment of `l`. -/
def hasSubL {α : Type} [DecidableEq α] (l sub : List α) : Bool :=
  match l with
  | [] => startsWithL [] sub
  | _ :: t => startsWithL l sub || hasSubL t sub

theorem startsWithL_iff {α : Type} [DecidableEq α] (l p : List α) :
    startsWithL l p = true ↔ ∃ t, l = p ++ t := by
  induction p generalizing l with
  | nil => simp [startsWithL]
  | cons x xs ih =>
    cases l with
    | nil => simp [startsWithL]
    | cons c t =>
      simp only [startsWithL, Bool.and_eq_true, decide_eq_true_eq, ih]
      constructor
      · rintro ⟨rfl, u, rfl⟩
        exact ⟨u, rfl⟩
      · rintro ⟨u, h⟩
        simp only [List.cons_append, List.cons.injEq] at h
        exact ⟨h.1, u, h.2⟩

theorem startsWithL_append_of_le {α : Type} [DecidableEq α]
    (x y p : List α) (h : p.length ≤ x.length) :
    startsWithL (x ++ y) p = startsWithL x p := by
  induction p generalizing x with
  | nil => simp [startsWithL]
  | cons a ps ih =>
    cases x with
    | nil => simp at h
    | cons c t =>
      simp only [List.cons_append, startsWithL, List.append_eq]
      rw [ih t (by simpa using h)]

/-- ASCII uppercasing of one byte (the fragment of Go `strings.ToUpper`
relevant to the sniffer: `a`–`z` map to `A`–`Z`, every other byte is kept). -/
def upperByte (c : Byte) : Byte :=
  if 97 ≤ c.val ∧ c.val ≤ 122 then ⟨c.val - 32, by omega⟩ else c

/-- Encode an ASCII string literal as a byte list. -/
def ascii (s : String) : List Byte :=
  s.data.map (fun c => ⟨c.toNat % 256, Nat.mod_lt _ (by omega)⟩)

/-! ## Sniffer (src/unnamed part_009 `Sniffer.TLS`, src/core/proxy/sniff.go `Sniff.TLS`)

Both sniffer variants in the repository have the identical TLS record check. -/

/-- `Sniffer.TLS` / `Sniff.TLS`: recognise a TLS record header in the
peeked bytes.  Translated line by line: length check, record type `0x16`,
major version `0x03`, minor version at most `0x04`, and a big-endian
record length (`uint16(b[3])<<8 | uint16(b[4])`) in `(0, 16384]`. -/
def sniffTLS : List Byte → Bool
  | b0 :: b1 :: b2 :: b3 :: b4 :: _ =>
    if b0 ≠ (22 : Byte) then false
    else if b1 ≠ (3 : Byte) then false
    else if b2.val > 4 then false
    else
      if b3.val * 256 + b4.val = 0 ∨ b3.val * 256 + b4.val > 16384 then false
      else true
  | _ => false

/-- C1: the sniffer's TLS classifier returns true iff the buffer has at
least 5 bytes, byte 0 is 0x16, byte 1 is 0x03, byte 2 is at most 0x04, and
the big-endian 16-bit length in bytes 3–4 is in (0, 16384]. -/
theorem sniffTLS_iff (b : List Byte) :
    sniffTLS b = true ↔
      5 ≤ b.length ∧
      b.getD 0 0 = (22 : Byte) ∧
      b.getD 1 0 = (3 : Byte) ∧
      (b.getD 2 0).val ≤ 4 ∧
      0 < (b.getD 3 0).val * 256 + (b.getD 4 0).val ∧
      (b.getD 3 0).val * 256 + (b.getD 4 0).val ≤ 16384 := by
  match b with
  | [] => simp [sniffTLS]
  | [_] => simp [sniffTLS]
  | [_, _] => simp [sniffTLS]
  | [_, _, _] => simp [sniffTLS]
  | [_, _, _, _] => simp [sniffTLS]
  | b0 :: b1 :: b2 :: b3 :: b4 :: rest =>
    simp only [sniffTLS, List.getD_cons_zero, List.getD_cons_succ, List.length_cons]
    constructor
    · intro h
      by_cases h0 : b0 = (22 : Byte)
      · by_cases h1 : b1 = (3 : Byte)
        · by_cases h2 : b2.val > 4
          · simp [h0, h1, h2] at h
          · by_cases h3 : b3.val * 256 + b4.val = 0 ∨ b3.val * 256 + b4.val > 16384
            · rw [if_neg (by simp [h0]), if_neg (by simp [h1]), if_neg h2, if_pos h3] at h
              exact absurd h (by simp)
            · push_neg at h3
              exact ⟨by omega, h0, h1, by omega, by omega, by omega⟩
        · simp [h0, h1] at h
      · simp [h0] at h
    · rintro ⟨-, rfl, rfl, h2, h4, h5⟩
      simp only [ne_eq, not_true_eq_false, if_false]
      rw [if_neg (by omega), if_neg (by omega)]

/-! ## HTTP sniffing (src/unnamed part_009 `Sniffer.HTTP`) -/

/-- The nine HTTP method tokens checked by `Sniffer.HTTP`. -/
def httpMethods : List (List Byte) :=
  [ascii "GET ", ascii "POST ", ascii "PUT ", ascii "DELETE ", ascii "HEAD ",
   ascii "OPTIONS ", ascii "PATCH ", ascii "TRACE ", ascii "CONNECT "]

/-- The HTTP/2 prior-knowledge preamble checked literally (not uppercased). -/
def priPreamble : List Byte := ascii "PRI * HTTP/2.0"

/-- `Sniffer.HTTP` (part_009): fewer than 14 bytes is inconclusive; otherwise
uppercase the buffer, and for the first method token that is a prefix return
whether `HTTP/1.` or `HTTP/2` occurs in the window (returning false
otherwise); if no method token is a prefix, check the literal `PRI * HTTP/2.0`
preamble on the raw bytes. -/
def sniffHTTP (b : List Byte) : Bool :=
  if b.length < 14 then false
  else
    match httpMethods.find? (fun m => startsWithL (b.map upperByte) m) with
    | some _ =>
        hasSubL (b.map upperByte) (ascii "HTTP/1.") ||
        hasSubL (b.map upperByte) (ascii "HTTP/2")
    | none => startsWithL b priPreamble

/-- A buffer that begins with the raw `PRI * HTTP/2.0` preamble cannot begin,
uppercased, with any of the nine method tokens. -/
theorem pri_excludes_methods (b : List Byte) (hp : startsWithL b priPreamble = true)
    (m : List Byte) (hm : m ∈ httpMethods) :
    startsWithL (b.map upperByte) m = false := by
  obtain ⟨t, rfl⟩ := (startsWithL_iff _ _).1 hp
  rw [List.map_append]
  have hmem : m = ascii "GET " ∨ m = ascii "POST " ∨ m = ascii "PUT " ∨
      m = ascii "DELETE " ∨ m = ascii "HEAD " ∨ m = ascii "OPTIONS " ∨
      m = ascii "PATCH " ∨ m = ascii "TRACE " ∨ m = ascii "CONNECT " := by
    simpa [httpMethods] using hm
  rcases hmem with rfl | rfl | rfl | rfl | rfl | rfl | rfl | rfl | rfl <;>
    (rw [startsWithL_append_of_le _ _ _ (by decide)]; decide)

/-- C2: a peek buffer of fewer than 14 bytes is never classified as HTTP;
a buffer of at least 14 bytes is classified as HTTP exactly when its
uppercasing begins with one of the nine method tokens and contains
`HTTP/1.` or `HTTP/2` in the peeked window, or when the raw buffer begins
with the literal `PRI * HTTP/2.0` preamble. -/
theorem sniffHTTP_characterisation (b : List Byte) :
    (b.length < 14 → sniffHTTP b = false) ∧
    (14 ≤ b.length →
      (sniffHTTP b = true ↔
        ((∃ m ∈ httpMethods, startsWithL (b.map upperByte) m = true) ∧
          (hasSubL (b.map upperByte) (ascii "HTTP/1.") = true ∨
           hasSubL (b.map upperByte) (ascii "HTTP/2") = true)) ∨
        startsWithL b priPreamble = true)) := by
  constructor
  · intro h
    simp [sniffHTTP, h]
  · intro hlen
    have hnl : ¬ b.length < 14 := by omega
    unfold sniffHTTP
    rw [if_neg hnl]
    cases hfind : httpMethods.find? (fun m => startsWithL (b.map upperByte) m) with
    | none =>
      have hno : ∀ m ∈ httpMethods, ¬ startsWithL (b.map upperByte) m = true := by
        intro m hm
        simpa using List.find?_eq_none.mp hfind m hm
      constructor
      · intro h
        exact Or.inr h
      · rintro (⟨⟨m, hm, hsw⟩, -⟩ | h)
        · exact absurd hsw (hno m hm)
        · exact h
    | some m =>
      have hm : m ∈ httpMethods := List.mem_of_find?_eq_some hfind
      have hsw : startsWithL (b.map upperByte) m = true := by
        simpa using List.find?_some hfind
      constructor
      · intro h
        rw [Bool.or_eq_true] at h
        exact Or.inl ⟨⟨m, hm, hsw⟩, h⟩
      · rintro (⟨-, hc⟩ | hp)
        · rw [Bool.or_eq_true]
          exact hc
        · exact absurd hsw (by simp [pri_excludes_methods b hp m hm])

/-- Witness for `sniffHTTP_characterisation` at concrete buffers: the
14-byte request line `GET / HTTP/1.1` is classified HTTP, and the 3-byte
buffer `GET` is inconclusive. -/
theorem sniffHTTP_characterisation_witness :
    sniffHTTP (ascii "GET / HTTP/1.1") = true ∧ sniffHTTP (ascii "GET") = false :=
  ⟨((sniffHTTP_characterisation (ascii "GET / HTTP/1.1")).2 (by decide)).mpr
      (Or.inl ⟨⟨ascii "GET ", by decide, by decide⟩, Or.inl (by decide)⟩),
   (sniffHTTP_characterisation (ascii "GET")).1 (by decide)⟩

/-! ## Path routing (src/core/config/proxy.go `Proxy.sortRoutes`,
`Proxy.MatchRoute`, `matchesRoute`)

Go strings are modelled as `List Char`.  The routes carried here are the
`(pattern, target)` part of `config.Route`; rewrite rules (regex
replacement) are orthogonal to the routing claims and are not modelled, so
the rewritten path of a matched route equals the request path, which
coincides with the source when no rewrite rule is configured. -/

/-- `strings.HasSuffix`. -/
def endsWithL {α : Type} [DecidableEq α] (l p : List α) : Bool :=
  startsWithL l.reverse p.reverse

/-- `strings.TrimSuffix`: drop `p` from the end of `l` when it is a suffix. -/
def trimSuffixL {α : Type} [DecidableEq α] (l p : List α) : List α :=
  if endsWithL l p then l.take (l.length - p.length) else l

theorem endsWithL_iff {α : Type} [DecidableEq α] (l p : List α) :
    endsWithL l p = true ↔ ∃ s, l = s ++ p := by
  rw [endsWithL, startsWithL_iff]
  constructor
  · rintro ⟨t, ht⟩
    refine ⟨t.reverse, ?_⟩
    have h2 := congrArg List.reverse ht
    simpa using h2
  · rintro ⟨s, rfl⟩
    exact ⟨s.reverse, by simp⟩

theorem trimSuffixL_append {α : Type} [DecidableEq α] (s p : List α) :
    trimSuffixL (s ++ p) p = s := by
  rw [trimSuffixL, if_pos ((endsWithL_iff _ _).2 ⟨s, rfl⟩), List.length_append,
    Nat.add_sub_cancel, List.take_left]

theorem getD_append_cons {α : Type} (xs : List α) (y : α) (ys : List α) (d : α) :
    (xs ++ y :: ys).getD xs.length d = y := by
  induction xs with
  | nil => simp
  | cons a as ih => simpa using ih

/-- The character list of a string literal. -/
def chars (s : String) : List Char := s.data

def slash : Char := '/'

def star : Char := '*'

/-- A path route: `config.Route`'s pattern and target. -/
structure Route where
  pattern : List Char
  target : List Char
  deriving DecidableEq

/-- `config.RouteResult` (target, rewritten path, matched flag). -/
structure RouteResult where
  target : List Char
  rewrittenPath : List Char
  matched : Bool
  deriving DecidableEq

/-- `config.Proxy`: default target and the sorted route list that
`MatchRoute` scans. -/
structure ProxyEntry where
  target : List Char
  sortedRoutes : List Route
  deriving DecidableEq

/-- `matchesRoute` (proxy.go): exact equality; or a `/*` pattern whose
trimmed stem `P` matches `P/...` or exactly `P`; or a plain prefix whose
next path character is `/` or end-of-path. -/
def matchesRoute (path pattern : List Char) : Bool :=
  if path = pattern then true
  else if endsWithL pattern [slash, star] then
    startsWithL path (trimSuffixL pattern [slash, star] ++ [slash]) ||
      decide (path = trimSuffixL pattern [slash, star])
  else if startsWithL path pattern then
    if path.length = pattern.length then true
    else if path.length > pattern.length ∧ path.getD pattern.length star = slash then true
    else false
  else false

/-- `Proxy.MatchRoute`: the first route of `sortedRoutes` whose pattern
matches wins; with no match the proxy's default target is used and the path
is unchanged. -/
def MatchRoute (p : ProxyEntry) (path : List Char) : RouteResult :=
  match p.sortedRoutes.find? (fun r => matchesRoute path r.pattern) with
  | some r => ⟨r.target, path, true⟩
  | none => ⟨p.target, path, false⟩

/-- Go bytewise string comparison `<` on character lists. -/
def strLtL : List Char → List Char → Bool
  | [], [] => false
  | [], _ :: _ => true
  | _ :: _, [] => false
  | a :: as, b :: bs => if a = b then strLtL as bs else decide (a < b)

/-- The comparator of `Proxy.sortRoutes`: longer pattern first, ties broken
by lexicographically smaller pattern. -/
def routeLess (r1 r2 : Route) : Bool :=
  if r1.pattern.length ≠ r2.pattern.length then
    decide (r1.pattern.length > r2.pattern.length)
  else strLtL r1.pattern r2.pattern

/-- Insertion step of `sortRoutes` (the Go code uses `sort.Slice` with
`routeLess`; for pairwise-distinct patterns the comparator is a strict
total order, so any correct sort yields this result). -/
def insertRoute (r : Route) : List Route → List Route
  | [] => [r]
  | x :: xs => if routeLess r x then r :: x :: xs else x :: insertRoute r xs

/-- `Proxy.sortRoutes` as an insertion sort with the source's comparator. -/
def sortRoutes (rs : List Route) : List Route := rs.foldr insertRoute []

/-- The route-matching rules exactly as the claim states them. -/
def SpecRouteMatches (path pattern : List Char) : Prop :=
  pattern = path ∨
  (∃ P, pattern = P ++ [slash, star] ∧ (path = P ∨ ∃ t, path = P ++ slash :: t)) ∨
  (∃ t, path = pattern ++ t ∧ (t = [] ∨ ∃ u, t = slash :: u))

theorem matchesRoute_iff (path pattern : List Char) :
    matchesRoute path pattern = true ↔ SpecRouteMatches path pattern := by
  unfold matchesRoute SpecRouteMatches
  by_cases heq : path = pattern
  · subst heq
    simp
  · rw [if_neg heq]
    by_cases hsfx : endsWithL pattern [slash, star] = true
    · rw [if_pos hsfx]
      obtain ⟨P, rfl⟩ := (endsWithL_iff _ _).1 hsfx
      rw [trimSuffixL_append]
      constructor
      · intro h
        rw [Bool.or_eq_true, decide_eq_true_eq] at h
        rcases h with h | hP
        · obtain ⟨t, rfl⟩ := (startsWithL_iff _ _).1 h
          exact Or.inr (Or.inl ⟨P, rfl, Or.inr ⟨t, by simp⟩⟩)
        · exact Or.inr (Or.inl ⟨P, rfl, Or.inl hP⟩)
      · rintro (h | ⟨Q, hQ, hpath⟩ | ⟨t, rfl, ht⟩)
        · exact absurd h.symm heq
        · obtain rfl : Q = P := List.append_cancel_right hQ.symm
          rw [Bool.or_eq_true, decide_eq_true_eq]
          rcases hpath with rfl | ⟨t, rfl⟩
          · exact Or.inr rfl
          · exact Or.inl ((startsWithL_iff _ _).2 ⟨t, by simp⟩)
        · rcases ht with rfl | ⟨u, rfl⟩
          · exact absurd (by simp) heq
          · rw [Bool.or_eq_true]
            refine Or.inl ((startsWithL_iff _ _).2 ⟨star :: slash :: u, ?_⟩)
            simp
    · rw [if_neg hsfx]
      constructor
      · intro h
        by_cases hsp : startsWithL path pattern = true
        · rw [if_pos hsp] at h
          obtain ⟨t, rfl⟩ := (startsWithL_iff _ _).1 hsp
          by_cases hl : (pattern ++ t).length = pattern.length
          · obtain rfl : t = [] := by
              simp only [List.length_append] at hl
              exact List.eq_nil_of_length_eq_zero (by omega)
            exact absurd (by simp) heq
          · rw [if_neg hl] at h
            cases t with
            | nil => simp at hl
            | cons t0 t' =>
              by_cases hc : (pattern ++ t0 :: t').length > pattern.length ∧
                  (pattern ++ t0 :: t').getD pattern.length star = slash
              · obtain rfl : t0 = slash := by
                  have h2 := hc.2
                  rwa [getD_append_cons] at h2
                exact Or.inr (Or.inr ⟨slash :: t', rfl, Or.inr ⟨t', rfl⟩⟩)
              · rw [if_neg hc] at h
                exact absurd h (by simp)
        · rw [if_neg hsp] at h
          exact absurd h (by simp)
      · rintro (h | ⟨P, rfl, -⟩ | ⟨t, rfl, ht⟩)
        · exact absurd h.symm heq
        · exact absurd ((endsWithL_iff _ _).2 ⟨P, rfl⟩) hsfx
        · rcases ht with rfl | ⟨u, rfl⟩
          · exact absurd (by simp) heq
          · rw [if_pos ((startsWithL_iff _ _).2 ⟨slash :: u, rfl⟩),
              if_neg (by simp), if_pos ⟨by simp, by rw [getD_append_cons]⟩]

/-- C3: `MatchRoute` returns the first route of the sorted list whose
pattern matches the path under the claim's rules (exact equality; `/*`
stem; prefix followed by `/` or end-of-path); with no match it returns the
proxy's default target with the path unchanged; and on the routes
`[/api/*, /api/v1/*, /]` (sorted by descending pattern length, ties by
ascending pattern) the path `/api/v1/foo` selects `/api/v1/*`, `/api/foo`
selects `/api/*`, and `/other` selects the default. -/
theorem MatchRoute_spec :
    (∀ path pattern, matchesRoute path pattern = true ↔ SpecRouteMatches path pattern) ∧
    (∀ (p : ProxyEntry) (path : List Char) (r : Route),
        p.sortedRoutes.find? (fun r => matchesRoute path r.pattern) = some r →
        MatchRoute p path = ⟨r.target, path, true⟩) ∧
    (∀ (p : ProxyEntry) (path : List Char),
        p.sortedRoutes.find? (fun r => matchesRoute path r.pattern) = none →
        MatchRoute p path = ⟨p.target, path, false⟩) ∧
    (sortRoutes [⟨chars "/api/*", chars "t1"⟩, ⟨chars "/api/v1/*", chars "t2"⟩,
        ⟨chars "/", chars "t3"⟩] =
      [⟨chars "/api/v1/*", chars "t2"⟩, ⟨chars "/api/*", chars "t1"⟩,
        ⟨chars "/", chars "t3"⟩] ∧
     MatchRoute ⟨chars "dflt", sortRoutes [⟨chars "/api/*", chars "t1"⟩,
        ⟨chars "/api/v1/*", chars "t2"⟩, ⟨chars "/", chars "t3"⟩]⟩
        (chars "/api/v1/foo") = ⟨chars "t2", chars "/api/v1/foo", true⟩ ∧
     MatchRoute ⟨chars "dflt", sortRoutes [⟨chars "/api/*", chars "t1"⟩,
        ⟨chars "/api/v1/*", chars "t2"⟩, ⟨chars "/", chars "t3"⟩]⟩
        (chars "/api/foo") = ⟨chars "t1", chars "/api/foo", true⟩ ∧
     MatchRoute ⟨chars "dflt", sortRoutes [⟨chars "/api/*", chars "t1"⟩,
        ⟨chars "/api/v1/*", chars "t2"⟩, ⟨chars "/", chars "t3"⟩]⟩
        (chars "/other") = ⟨chars "dflt", chars "/other", false⟩) := by
  refine ⟨matchesRoute_iff, ?_, ?_, by decide⟩
  · intro p path r h
    rw [MatchRoute, h]
  · intro p path h
    rw [MatchRoute, h]

/-- Witness for `MatchRoute_spec`: the hypothesised clauses applied at a
concrete proxy entry with one matching and one non-matching lookup. -/
theorem MatchRoute_spec_witness :
    MatchRoute ⟨chars "d", [⟨chars "/a/*", chars "t"⟩]⟩ (chars "/a/x") =
      ⟨chars "t", chars "/a/x", true⟩ ∧
    MatchRoute ⟨chars "d", [⟨chars "/a/*", chars "t"⟩]⟩ (chars "/b") =
      ⟨chars "d", chars "/b", false⟩ :=
  ⟨MatchRoute_spec.2.1 ⟨chars "d", [⟨chars "/a/*", chars "t"⟩]⟩ (chars "/a/x")
      ⟨chars "/a/*", chars "t"⟩ (by decide),
   MatchRoute_spec.2.2.1 ⟨chars "d", [⟨chars "/a/*", chars "t"⟩]⟩ (chars "/b")
      (by decide)⟩

/-! ## Rate limiter (src/unnamed part_004 `limiter.New`, `Limiter.Allow`,
`Limiter.AllowIP`, `Limiter.allow`, options.go)

Time is modelled in nanoseconds (`ℤ`, as Go's `UnixNano`).  The token
count, which the `golang.org/x/time/rate` dependency keeps as a `float64`
number of tokens, is modelled exactly as an integer number of
token-nanoseconds (the count scaled by 10^9): the repository only ever
configures integer rates (`WithRPS` takes an `int`), for which every
quantity the bucket computes is an integer multiple of 10^-9 tokens. -/

/-- Model of `golang.org/x/time/rate.Limiter` (an external dependency of
the repository): a token bucket of capacity `burst` refilled at `limit`
tokens per second.  `rate.NewLimiter` dates an empty bucket at the zero
time, so its first `advance` saturates to a full bucket; the bucket is
modelled as full at creation, the package's documented behaviour.
`tokensNs` is the token count scaled by 10^9. -/
structure TokenBucket where
  limit : ℤ
  burst : ℤ
  tokensNs : ℤ
  last : ℤ
  deriving DecidableEq

def TokenBucket.new (limit : ℤ) (burst : ℤ) (now : ℤ) : TokenBucket :=
  ⟨limit, burst, burst * 1000000000, now⟩

/-- `rate.Limiter.advance`: elapsed nanoseconds since `last`, clamped below
at zero (`if t.Before(last) { last = t }`). -/
def TokenBucket.elapsedNs (tb : TokenBucket) (now : ℤ) : ℤ :=
  if now < tb.last then 0 else now - tb.last

/-- `rate.Limiter.advance`: the token count at `now` — refill at `limit`
tokens per second, clamped at `burst` — scaled by 10^9. -/
def TokenBucket.advanceTokensNs (tb : TokenBucket) (now : ℤ) : ℤ :=
  let tokens := tb.tokensNs + tb.limit * tb.elapsedNs now
  if tb.burst * 1000000000 < tokens then tb.burst * 1000000000 else tokens

/-- `rate.Limiter.Allow` = `AllowN(now, 1)`: consume one token when the
advanced bucket holds one and `1 ≤ burst`; a failed reservation leaves the
bucket unchanged. -/
def TokenBucket.allowAt (tb : TokenBucket) (now : ℤ) : Bool × TokenBucket :=
  if 1 ≤ tb.burst ∧ 1000000000 ≤ tb.advanceTokensNs now then
    (true, { tb with tokensNs := tb.advanceTokensNs now - 1000000000, last := now })
  else (false, tb)

/-- `limiter.client`: per-IP bucket, `lastSeen` and `cooldown` timestamps
(`cooldown`'s Go zero value 0 means no cooldown is active). -/
structure ClientState where
  bucket : TokenBucket
  lastSeen : ℤ
  cooldown : ℤ
  deriving DecidableEq

/-- `limiter.Limiter`: the configured rate, burst and cooldown plus the
concurrent client map, modelled as an association list keyed by IP. -/
structure LimiterState where
  rate : ℤ
  burst : ℤ
  cooldownDur : ℤ
  clients : List (String × ClientState)
  deriving DecidableEq

def alookup {β : Type} (k : String) : List (String × β) → Option β
  | [] => none
  | (k', v) :: t => if k = k' then some v else alookup k t

def aset {β : Type} (k : String) (v : β) : List (String × β) → List (String × β)
  | [] => [(k, v)]
  | (k', v') :: t => if k = k' then (k, v) :: t else (k', v') :: aset k v t

theorem alookup_aset {β : Type} (k : String) (v : β) (l : List (String × β)) :
    alookup k (aset k v l) = some v := by
  induction l with
  | nil => simp [aset, alookup]
  | cons p t ih =>
    obtain ⟨k', v'⟩ := p
    by_cases h : k = k'
    · simp [aset, alookup, h]
    · simp [aset, alookup, h, ih]

/-- `Limiter.allow` (part_004 lines 80–104): look up or lazily create the
client; deny while `now` is before the client's cooldown; otherwise try the
token bucket — on success update `lastSeen` and allow, on failure set
`cooldown = now + cooldownDur` and deny. -/
def LimiterState.allow (l : LimiterState) (ip : String) (now : ℤ) :
    Bool × LimiterState :=
  let c :=
    match alookup ip l.clients with
    | some c0 => c0
    | none => ⟨TokenBucket.new l.rate l.burst now, now, 0⟩
  if now < c.cooldown then
    (false, { l with clients := aset ip c l.clients })
  else if (c.bucket.allowAt now).1 then
    let c1 : ClientState := { c with bucket := (c.bucket.allowAt now).2, lastSeen := now }
    (true, { l with clients := aset ip c1 l.clients })
  else
    let c2 : ClientState :=
      { c with bucket := (c.bucket.allowAt now).2, cooldown := now + l.cooldownDur }
    (false, { l with clients := aset ip c2 l.clients })

/-- `Limiter.AllowIP`: a limiter whose rate or burst is zero always allows;
otherwise defer to `allow`.  (`Limiter.Allow` has the identical guard
before extracting the peer IP from the connection.) -/
def LimiterState.AllowIP (l : LimiterState) (ip : String) (now : ℤ) :
    Bool × LimiterState :=
  if l.rate = 0 ∨ l.burst = 0 then (true, l) else l.allow ip now

/-- `limiter.WithRPS`. -/
def WithRPS (rps : ℤ) (l : LimiterState) : LimiterState := { l with rate := rps }

/-- `limiter.WithBurst`. -/
def WithBurst (burst : ℤ) (l : LimiterState) : LimiterState := { l with burst := burst }

/-- `limiter.WithCooldown` (a duration in nanoseconds). -/
def WithCooldown (cd : ℤ) (l : LimiterState) : LimiterState := { l with cooldownDur := cd }

/-- `limiter.WithDefaultRPS`: 10 requests per second. -/
def WithDefaultRPS (l : LimiterState) : LimiterState := { l with rate := 10 }

/-- `limiter.WithDefaultBurst`: burst 10. -/
def WithDefaultBurst (l : LimiterState) : LimiterState := { l with burst := 10 }

/-- `limiter.WithDefaultCooldown`: 5 minutes. -/
def WithDefaultCooldown (l : LimiterState) : LimiterState :=
  { l with cooldownDur := 300000000000 }

/-- `limiter.New`: apply the options to a zero limiter, then replace a zero
cooldown, burst or rate by the defaults. -/
def limiterNew (opts : List (LimiterState → LimiterState)) : LimiterState :=
  let l0 := opts.foldl (fun l o => o l) ⟨0, 0, 0, []⟩
  let l1 := if l0.cooldownDur = 0 then WithDefaultCooldown l0 else l0
  let l2 := if l1.burst = 0 then WithDefaultBurst l1 else l1
  if l2.rate = 0 then WithDefaultRPS l2 else l2

/-- Run `allow` for one IP at each time of the list, collecting results. -/
def LimiterState.runAllow (l : LimiterState) (ip : String) :
    List ℤ → List Bool × LimiterState
  | [] => ([], l)
  | t :: ts =>
    ((l.allow ip t).1 :: ((l.allow ip t).2.runAllow ip ts).1,
      ((l.allow ip t).2.runAllow ip ts).2)

/-- Run `AllowIP` for one IP at each time of the list, collecting results. -/
def LimiterState.runAllowIP (l : LimiterState) (ip : String) :
    List ℤ → List Bool × LimiterState
  | [] => ([], l)
  | t :: ts =>
    ((l.AllowIP ip t).1 :: ((l.AllowIP ip t).2.runAllowIP ip ts).1,
      ((l.AllowIP ip t).2.runAllowIP ip ts).2)

/-- Cooldown dominance: while every call time lies before the client's
`cooldown`, every call for that IP is denied and the client is untouched,
irrespective of how full the token bucket would be. -/
theorem runAllow_cooldown_all_denied (ip : String) (c : ClientState) :
    ∀ (times : List ℤ) (l : LimiterState),
      alookup ip l.clients = some c →
      (∀ t ∈ times, t < c.cooldown) →
      (l.runAllow ip times).1 = times.map (fun _ => false) := by
  intro times
  induction times with
  | nil =>
    intro l _ _
    simp [LimiterState.runAllow]
  | cons t ts ih =>
    intro l hlk hts
    have hlt : t < c.cooldown := hts t (by simp)
    have h1 : l.allow ip t = (false, { l with clients := aset ip c l.clients }) := by
      unfold LimiterState.allow
      rw [hlk]
      exact if_pos hlt
    rw [LimiterState.runAllow, h1, List.map_cons]
    exact congrArg (List.cons false)
      (ih _ (alookup_aset ip c l.clients) (fun u hu => hts u (List.mem_cons_of_mem _ hu)))

/-- C4: a deny caused by an empty bucket stamps the client with
`cooldown = now + cooldownDur`; every further call from that IP before the
stamp is denied regardless of refill; and with rate 1000/s, burst 5,
cooldown 100 ms, six immediate calls give five allows then a deny, and any
call at least 100 ms after the deny is allowed again. -/
theorem limiter_cooldown_spec :
    (∀ (l : LimiterState) (ip : String) (now : ℤ) (c : ClientState),
        (alookup ip l.clients = some c ∨
          (alookup ip l.clients = none ∧
            c = ⟨TokenBucket.new l.rate l.burst now, now, 0⟩)) →
        ¬ now < c.cooldown →
        (c.bucket.allowAt now).1 = false →
        (l.allow ip now).1 = false ∧
          ∃ c', alookup ip (l.allow ip now).2.clients = some c' ∧
            c'.cooldown = now + l.cooldownDur) ∧
    (∀ (l : LimiterState) (ip : String) (c : ClientState) (times : List ℤ),
        alookup ip l.clients = some c →
        (∀ t ∈ times, t < c.cooldown) →
        (l.runAllow ip times).1 = times.map (fun _ => false)) ∧
    ((limiterNew [WithRPS 1000, WithBurst 5, WithCooldown 100000000]).runAllow "ip"
        [0, 0, 0, 0, 0, 0] =
      ([true, true, true, true, true, false],
        ⟨1000, 5, 100000000, [("ip", ⟨⟨1000, 5, 0, 0⟩, 0, 100000000⟩)]⟩)) ∧
    (∀ t : ℤ, 100000000 ≤ t →
      ((⟨1000, 5, 100000000, [("ip", ⟨⟨1000, 5, 0, 0⟩, 0, 100000000⟩)]⟩ :
          LimiterState).allow "ip" t).1 = true) := by
  refine ⟨?_, fun l ip c times h1 h2 => runAllow_cooldown_all_denied ip c times l h1 h2,
    by decide, ?_⟩
  · intro l ip now c hc hcool hfail
    have hfail' : ¬ (c.bucket.allowAt now).1 = true := by simp [hfail]
    rcases hc with hlk | ⟨hlk, rfl⟩
    · unfold LimiterState.allow
      rw [hlk]
      rw [if_neg hcool, if_neg hfail']
      exact ⟨rfl, _, alookup_aset _ _ _, rfl⟩
    · unfold LimiterState.allow
      rw [hlk]
      rw [if_neg hcool, if_neg hfail']
      exact ⟨rfl, _, alookup_aset _ _ _, rfl⟩
  · intro t ht
    have hcool : ¬ t < (100000000 : ℤ) := not_lt.mpr ht
    have hadv : (1000000000 : ℤ) ≤ TokenBucket.advanceTokensNs ⟨1000, 5, 0, 0⟩ t := by
      show (1000000000 : ℤ) ≤
        if (5 : ℤ) * 1000000000 < 0 + 1000 * (if t < (0 : ℤ) then 0 else t - 0) then
          (5 : ℤ) * 1000000000
        else 0 + 1000 * (if t < (0 : ℤ) then 0 else t - 0)
      rw [if_neg (by omega : ¬ t < (0 : ℤ))]
      split <;> omega
    have hallow : (TokenBucket.allowAt ⟨1000, 5, 0, 0⟩ t).1 = true := by
      unfold TokenBucket.allowAt
      rw [if_pos ⟨by norm_num, hadv⟩]
    unfold LimiterState.allow
    rw [show alookup "ip"
        ((⟨1000, 5, 100000000, [("ip", ⟨⟨1000, 5, 0, 0⟩, 0, 100000000⟩)]⟩ :
          LimiterState)).clients = some ⟨⟨1000, 5, 0, 0⟩, 0, 100000000⟩ from rfl]
    rw [if_neg hcool, if_pos hallow]

/-- Witness for `limiter_cooldown_spec`: the deny-stamps-cooldown clause at
a one-client limiter whose bucket is empty, the cooldown-dominance clause
at two early call times, and the recovery clause at exactly 100 ms. -/
theorem limiter_cooldown_spec_witness :
    (((⟨1, 1, 100, [("b", ⟨⟨1, 1, 0, 0⟩, 0, 0⟩)]⟩ : LimiterState).allow "b" 0).1 = false ∧
      ∃ c', alookup "b"
          (((⟨1, 1, 100, [("b", ⟨⟨1, 1, 0, 0⟩, 0, 0⟩)]⟩ : LimiterState).allow "b" 0).2).clients =
          some c' ∧ c'.cooldown = 0 + (100 : ℤ)) ∧
    ((⟨10, 10, 5, [("a", ⟨⟨10, 10, 10, 0⟩, 0, 50⟩)]⟩ : LimiterState).runAllow "a"
        [1, 2]).1 = [false, false] ∧
    ((⟨1000, 5, 100000000, [("ip", ⟨⟨1000, 5, 0, 0⟩, 0, 100000000⟩)]⟩ :
        LimiterState).allow "ip" 100000000).1 = true :=
  ⟨limiter_cooldown_spec.1 _ "b" 0 ⟨⟨1, 1, 0, 0⟩, 0, 0⟩ (Or.inl rfl) (by decide) (by decide),
   limiter_cooldown_spec.2.1 _ "a" ⟨⟨10, 10, 10, 0⟩, 0, 50⟩ [1, 2] rfl (by decide),
   limiter_cooldown_spec.2.2.2 100000000 (by decide)⟩

/-- C5 counterexample: a limiter built by `New(WithRPS(0))` is not
disabled — `New` replaces the zero rate by the default 10 (and burst by
10), so from one IP the 11th immediate `AllowIP` call is denied. -/
theorem limiterNew_rps0_not_disabled :
    (limiterNew [WithRPS 0]).rate = 10 ∧
    ((limiterNew [WithRPS 0]).runAllowIP "ip"
        [0, 0, 0, 0, 0, 0, 0, 0, 0, 0, 0]).1 =
      [true, true, true, true, true, true, true, true, true, true, false] := by
  decide

/-- C5 (amended): every limiter whose rate or burst field is zero always
allows via `Allow`/`AllowIP`; but `New` substitutes the default 10 for a
zero rate or burst, so `New(WithRPS(0))` and `New(WithBurst(0))` do not
produce such a limiter. -/
theorem limiter_zero_rate_or_burst_allows :
    (∀ (l : LimiterState) (ip : String) (now : ℤ),
        l.rate = 0 ∨ l.burst = 0 → (l.AllowIP ip now).1 = true) ∧
    (limiterNew [WithRPS 0]).rate = 10 ∧ (limiterNew [WithBurst 0]).burst = 10 := by
  refine ⟨?_, by decide, by decide⟩
  intro l ip now h
  unfold LimiterState.AllowIP
  rw [if_pos h]

/-- Witness for `limiter_zero_rate_or_burst_allows` at a zero-rate
limiter. -/
theorem limiter_zero_rate_or_burst_allows_witness :
    ((⟨0, 7, 3, []⟩ : LimiterState).AllowIP "x" 5).1 = true :=
  limiter_zero_rate_or_burst_allows.1 ⟨0, 7, 3, []⟩ "x" 5 (Or.inl rfl)

/-! ## HTTP relay keep-alive (src/unnamed part_006 `Proxy.handleHTTPResponse`) -/

/-- ASCII lowering of one character (the fragment of `strings.EqualFold`
relevant to the `Connection` header tokens). -/
def lowerChar (c : Char) : Char :=
  if 'A' ≤ c ∧ c ≤ 'Z' then Char.ofNat (c.toNat + 32) else c

/-- `strings.EqualFold` restricted to ASCII: case-insensitive equality. -/
def eqFoldL (a b : List Char) : Bool := decide (a.map lowerChar = b.map lowerChar)

/-- An HTTP message as the keep-alive decision reads it: protocol version
and the value of `Header.Get("Connection")` (empty when absent). -/
structure HTTPMessage where
  protoMajor : ℕ
  protoMinor : ℕ
  connection : List Char
  deriving DecidableEq

/-- The tail of `Proxy.handleHTTPResponse` (part_006 lines 159–165): after
one relayed non-WebSocket exchange, decide whether to close the client
connection (`true` closes; `false` lets `Proxy.http` continue its loop on
the same client connection). -/
def shouldCloseAfterExchange (req resp : HTTPMessage) : Bool :=
  if req.protoMajor = 1 ∧ req.protoMinor = 0 then
    ! eqFoldL req.connection (chars "keep-alive")
  else
    eqFoldL req.connection (chars "close") || eqFoldL resp.connection (chars "close")

/-- C7: for an HTTP/1.0 request the relay closes unless the request carries
`Connection: keep-alive` (case-insensitively); for an HTTP/1.1 request it
closes iff the request or the response carries `Connection: close`;
returning false continues the keep-alive loop. -/
theorem keepAlive_decision (req resp : HTTPMessage) :
    (req.protoMajor = 1 → req.protoMinor = 0 →
      shouldCloseAfterExchange req resp =
        ! eqFoldL req.connection (chars "keep-alive")) ∧
    (req.protoMajor = 1 → req.protoMinor = 1 →
      shouldCloseAfterExchange req resp =
        (eqFoldL req.connection (chars "close") ||
         eqFoldL resp.connection (chars "close"))) := by
  constructor
  · intro h1 h0
    unfold shouldCloseAfterExchange
    rw [if_pos ⟨h1, h0⟩]
  · intro h1 h1'
    unfold shouldCloseAfterExchange
    rw [if_neg (by omega : ¬ (req.protoMajor = 1 ∧ req.protoMinor = 0))]

/-- Witness for `keepAlive_decision`: a 1.0 request with `Keep-Alive` stays
open, a 1.1 request with `close` closes. -/
theorem keepAlive_decision_witness :
    shouldCloseAfterExchange ⟨1, 0, chars "Keep-Alive"⟩ ⟨1, 1, []⟩ = false ∧
    shouldCloseAfterExchange ⟨1, 1, chars "close"⟩ ⟨1, 1, []⟩ = true :=
  ⟨by rw [(keepAlive_decision ⟨1, 0, chars "Keep-Alive"⟩ ⟨1, 1, []⟩).1 rfl rfl]; decide,
   by rw [(keepAlive_decision ⟨1, 1, chars "close"⟩ ⟨1, 1, []⟩).2 rfl rfl]; decide⟩

/-! ## Domain trie (src/unnamed part_003 `Trie.Set`, `Trie.Get`)

A domain is modelled as its dot-separated label list (the result of
`strings.Split(domain, ".")`); the concurrent children map is modelled as
an association list keyed by label (lookup by key is order-independent). -/

/-- A trie node: children keyed by one DNS label, plus an optional value. -/
inductive TrieN (α : Type) where
  | node (children : List (String × TrieN α)) (value : Option α)

/-- `Trie.Set` walks the labels right-to-left, creating missing children
(`SetIfAbsent` then `Get`), and stores the value at the final node.  The
label list here is already reversed. -/
def trieSetRev {α : Type} : List String → TrieN α → α → TrieN α
  | [], .node ch _, x => .node ch (some x)
  | p :: ps, .node ch v, x =>
    let child :=
      match alookup p ch with
      | some c => c
      | none => .node [] none
    .node (aset p (trieSetRev ps child x) ch) v

/-- `Trie.Set` on a label list in domain order. -/
def trieSet {α : Type} (t : TrieN α) (labels : List String) (x : α) : TrieN α :=
  trieSetRev labels.reverse t x

/-- `Trie.Get` walks the (already reversed) labels right-to-left: prefer
the exact child, fall back to the `*` child, otherwise fail. -/
def trieGetRev {α : Type} : List String → TrieN α → Option α
  | [], .node _ v => v
  | p :: ps, .node ch _ =>
    match alookup p ch with
    | some c => trieGetRev ps c
    | none =>
      match alookup "*" ch with
      | some c => trieGetRev ps c
      | none => none

/-- `Trie.Get` on a label list in domain order. -/
def trieGet {α : Type} (t : TrieN α) (labels : List String) : Option α :=
  trieGetRev labels.reverse t

/-- C8: at every level an exact label match takes precedence over the `*`
child, and with neither present `Get` fails; after `Set("app.com", v1)` and
`Set("*.com", v2)`, `Get("app.com") = v1` and `Get(other + ".com") = v2`
for any label `other ≠ "app"`. -/
theorem trie_wildcard_precedence :
    (∀ (α : Type) (ch : List (String × TrieN α)) (v : Option α) (p : String)
        (ps : List String) (c : TrieN α),
        alookup p ch = some c →
        trieGetRev (p :: ps) (.node ch v) = trieGetRev ps c) ∧
    (∀ (α : Type) (ch : List (String × TrieN α)) (v : Option α) (p : String)
        (ps : List String),
        alookup p ch = none → alookup "*" ch = none →
        trieGetRev (p :: ps) (.node ch v) = none) ∧
    (∀ (α : Type) (v1 v2 : α) (other : String), other ≠ "app" →
        trieGet (trieSet (trieSet (.node [] none) ["app", "com"] v1) ["*", "com"] v2)
            ["app", "com"] = some v1 ∧
        trieGet (trieSet (trieSet (.node [] none) ["app", "com"] v1) ["*", "com"] v2)
            [other, "com"] = some v2) := by
  refine ⟨?_, ?_, ?_⟩
  · intro α ch v p ps c h
    simp only [trieGetRev, h]
  · intro α ch v p ps h1 h2
    simp only [trieGetRev, h1, h2]
  · intro α v1 v2 other hne
    constructor
    · simp [trieGet, trieSet, trieSetRev, trieGetRev, alookup, aset]
    · by_cases hstar : other = "*"
      · simp [trieGet, trieSet, trieSetRev, trieGetRev, alookup, aset, hstar]
      · simp [trieGet, trieSet, trieSetRev, trieGetRev, alookup, aset, hne, hstar]

/-- Witness for `trie_wildcard_precedence`: its clauses at concrete
one-level tries over `ℕ` and the example with `other = "web"`. -/
theorem trie_wildcard_precedence_witness :
    trieGetRev ["a"] (TrieN.node [("a", TrieN.node [] (some 7)),
        ("*", TrieN.node [] (some 8))] none) = some (7 : ℕ) ∧
    trieGetRev ["b"] (TrieN.node [("a", TrieN.node [] (some (7 : ℕ)))] none) = none ∧
    trieGet (trieSet (trieSet (.node [] none) ["app", "com"] (1 : ℕ)) ["*", "com"] 2)
        ["web", "com"] = some 2 :=
  ⟨by
    rw [trie_wildcard_precedence.1 ℕ
      [("a", TrieN.node [] (some 7)), ("*", TrieN.node [] (some 8))] none "a" []
      (TrieN.node [] (some 7)) (by simp [alookup])]
    exact rfl,
   by
    rw [trie_wildcard_precedence.2.1 ℕ [("a", TrieN.node [] (some (7 : ℕ)))] none "b" []
      (by simp [alookup]) (by simp [alookup])],
   (trie_wildcard_precedence.2.2 ℕ 1 2 "web" (by decide)).2⟩

/-! ## Metered reader/writer (src/unnamed part_001 `MetricsReadWriter.Read`,
`MetricsReadWriter.Write`, `Metrics.AddIngressBytes`, `Metrics.AddEgressBytes`) -/

/-- A Go I/O error as the stream and metrics wrappers distinguish them:
`io.EOF`, a timeout (`net.Error` with `Timeout() = true`), or any other
error (tagged by a code). -/
inductive IOError where
  | eof
  | timeout
  | other (code : ℕ)
  deriving DecidableEq

/-- `metrics.Metrics` byte counters (`uint64`; `atomic.AddUint64` wraps, so
additions are taken modulo `2^64`). -/
structure MetricsM where
  ingress : ℕ
  egress : ℕ
  deriving DecidableEq

/-- `Metrics.AddIngressBytes`. -/
def addIngressBytes (m : MetricsM) (n : ℕ) : MetricsM :=
  { m with ingress := (m.ingress + n) % 2 ^ 64 }

/-- `Metrics.AddEgressBytes`. -/
def addEgressBytes (m : MetricsM) (n : ℕ) : MetricsM :=
  { m with egress := (m.egress + n) % 2 ^ 64 }

/-- `MetricsReadWriter.Read`: return the underlying stream's `(n, err)`
unchanged, adding `n` to the ingress counter only when `n > 0`
(`n` is a Go `int`, hence `ℤ`). -/
def mrwRead (m : MetricsM) (res : ℤ × Option IOError) :
    (ℤ × Option IOError) × MetricsM :=
  (res, if 0 < res.1 then addIngressBytes m res.1.toNat else m)

/-- `MetricsReadWriter.Write`: symmetric to `Read`, on the egress counter. -/
def mrwWrite (m : MetricsM) (res : ℤ × Option IOError) :
    (ℤ × Option IOError) × MetricsM :=
  (res, if 0 < res.1 then addEgressBytes m res.1.toNat else m)

/-- Thread the metrics through a sequence of reads whose underlying results
are given. -/
def runReads (m : MetricsM) : List (ℤ × Option IOError) → MetricsM
  | [] => m
  | r :: rs => runReads (mrwRead m r).2 rs

/-- Thread the metrics through a sequence of writes. -/
def runWrites (m : MetricsM) : List (ℤ × Option IOError) → MetricsM
  | [] => m
  | r :: rs => runWrites (mrwWrite m r).2 rs

theorem runReads_ingress (reads : List (ℤ × Option IOError)) :
    ∀ m : MetricsM, m.ingress < 2 ^ 64 →
      (runReads m reads).ingress =
        (m.ingress + (reads.map (fun r => r.1.toNat)).sum) % 2 ^ 64 := by
  induction reads with
  | nil =>
    intro m hm
    simp only [runReads, List.map_nil, List.sum_nil, Nat.add_zero]
    omega
  | cons r rs ih =>
    intro m hm
    rw [runReads]
    by_cases h : 0 < r.1
    · rw [show (mrwRead m r).2 = addIngressBytes m r.1.toNat from by simp [mrwRead, h]]
      rw [ih _ (Nat.mod_lt _ (by norm_num))]
      simp only [addIngressBytes, List.map_cons, List.sum_cons]
      rw [Nat.mod_add_mod, Nat.add_assoc]
    · rw [show (mrwRead m r).2 = m from by simp [mrwRead, h]]
      rw [ih _ hm]
      have h0 : r.1.toNat = 0 := by omega
      simp [h0]

theorem runWrites_egress (writes : List (ℤ × Option IOError)) :
    ∀ m : MetricsM, m.egress < 2 ^ 64 →
      (runWrites m writes).egress =
        (m.egress + (writes.map (fun r => r.1.toNat)).sum) % 2 ^ 64 := by
  induction writes with
  | nil =>
    intro m hm
    simp only [runWrites, List.map_nil, List.sum_nil, Nat.add_zero]
    omega
  | cons r rs ih =>
    intro m hm
    rw [runWrites]
    by_cases h : 0 < r.1
    · rw [show (mrwWrite m r).2 = addEgressBytes m r.1.toNat from by simp [mrwWrite, h]]
      rw [ih _ (Nat.mod_lt _ (by norm_num))]
      simp only [addEgressBytes, List.map_cons, List.sum_cons]
      rw [Nat.mod_add_mod, Nat.add_assoc]
    · rw [show (mrwWrite m r).2 = m from by simp [mrwWrite, h]]
      rw [ih _ hm]
      have h0 : r.1.toNat = 0 := by omega
      simp [h0]

/-- C9: the wrapper passes the underlying `(n, err)` through unchanged; a
read or write returning `(0, err)` leaves the counters untouched; and over
any sequence of reads (writes) from fresh metrics the ingress (egress)
counter is the sum of the returned positive byte counts — modulo `2^64` as
the counters are `uint64`, hence exactly the sum whenever it fits. -/
theorem metrics_exactness :
    (∀ (m : MetricsM) (res : ℤ × Option IOError),
        (mrwRead m res).1 = res ∧ (mrwWrite m res).1 = res) ∧
    (∀ (m : MetricsM) (err : Option IOError),
        (mrwRead m (0, err)).2 = m ∧ (mrwWrite m (0, err)).2 = m) ∧
    (∀ reads : List (ℤ × Option IOError),
        (runReads ⟨0, 0⟩ reads).ingress =
          (reads.map (fun r => r.1.toNat)).sum % 2 ^ 64) ∧
    (∀ reads : List (ℤ × Option IOError),
        (reads.map (fun r => r.1.toNat)).sum < 2 ^ 64 →
        (runReads ⟨0, 0⟩ reads).ingress = (reads.map (fun r => r.1.toNat)).sum) ∧
    (∀ writes : List (ℤ × Option IOError),
        (runWrites ⟨0, 0⟩ writes).egress =
          (writes.map (fun r => r.1.toNat)).sum % 2 ^ 64) ∧
    (∀ writes : List (ℤ × Option IOError),
        (writes.map (fun r => r.1.toNat)).sum < 2 ^ 64 →
        (runWrites ⟨0, 0⟩ writes).egress = (writes.map (fun r => r.1.toNat)).sum) := by
  have hr : ∀ reads : List (ℤ × Option IOError),
      (runReads ⟨0, 0⟩ reads).ingress = (reads.map (fun r => r.1.toNat)).sum % 2 ^ 64 := by
    intro reads
    rw [runReads_ingress reads ⟨0, 0⟩ (by norm_num)]
    simp
  have hw : ∀ writes : List (ℤ × Option IOError),
      (runWrites ⟨0, 0⟩ writes).egress = (writes.map (fun r => r.1.toNat)).sum % 2 ^ 64 := by
    intro writes
    rw [runWrites_egress writes ⟨0, 0⟩ (by norm_num)]
    simp
  refine ⟨fun m res => ⟨rfl, rfl⟩, fun m err => ⟨by simp [mrwRead], by simp [mrwWrite]⟩,
    hr, ?_, hw, ?_⟩
  · intro reads hlt
    rw [hr reads, Nat.mod_eq_of_lt hlt]
  · intro writes hlt
    rw [hw writes, Nat.mod_eq_of_lt hlt]

/-- Witness for `metrics_exactness`: three reads returning 5, 0 (with an
error) and 3 bytes leave the ingress counter at 8; one write of 7 bytes
leaves the egress counter at 7. -/
theorem metrics_exactness_witness :
    (runReads ⟨0, 0⟩ [(5, none), (0, some IOError.eof), (3, some IOError.eof)]).ingress = 8 ∧
    (runWrites ⟨0, 0⟩ [(7, none)]).egress = 7 :=
  ⟨by
    rw [metrics_exactness.2.2.2.1 [(5, none), (0, some IOError.eof), (3, some IOError.eof)]
      (by decide)]
    decide,
   by
    rw [metrics_exactness.2.2.2.2.2 [(7, none)] (by decide)]
    decide⟩

/-! ## Bidirectional streaming (src/core/proxy/stream.go `Stream`,
`CopyWithContext`)

One copy direction is modelled sequentially: the source is the list of its
successive `Read` results (a chunk of bytes and an optional error) and the
destination is the list of its successive `Write` outcomes, consumed one
per non-empty chunk.  While the copies run, the context of `Stream` is
never done (its deferred `cancel` only fires when `Stream` returns), so the
`ctx.Done()` branches are dead and a timeout error makes the loop
`continue`; the deadline setters are no-ops here.  The result is `none`
when the loop blocks forever on a read or write that never returns, and
`some (transferred, err)` when `CopyWithContext` returns — `err` is its
returned Go error and is never nil: on a clean EOF the function executes
`return readErr`, returning `io.EOF` itself. -/

def copyWithCtx : List (List Byte × Option IOError) → List (Option IOError) →
    Option (List Byte × IOError)
  | [], _ => none
  | (chunk, rerr) :: rs, ws =>
    if chunk.isEmpty then
      match rerr with
      | some IOError.timeout => copyWithCtx rs ws
      | some e => some ([], e)
      | none => copyWithCtx rs ws
    else
      match ws with
      | [] => none
      | some werr :: _ => some ([], werr)
      | none :: ws' =>
        match rerr with
        | some IOError.timeout => (copyWithCtx rs ws').map (fun r => (chunk ++ r.1, r.2))
        | some e => some (chunk, e)
        | none => (copyWithCtx rs ws').map (fun r => (chunk ++ r.1, r.2))

/-- C6 (evaluation of the code at the failing inputs): for a source that
delivers its chunks and then reports a clean end-of-stream, with a
destination accepting every write, `CopyWithContext` copies all the bytes
and then returns the `io.EOF` error itself rather than nil; the value
`Stream` receives from its error channel on a clean EOF is therefore
`io.EOF`, not the nil success the specification requires. -/
theorem copyWithCtx_eof_returns_eof (chunks : List (List Byte))
    (h : ∀ c ∈ chunks, c ≠ []) :
    copyWithCtx (chunks.map (fun c => (c, none)) ++ [([], some IOError.eof)])
        (chunks.map (fun _ => none)) =
      some (chunks.flatten, IOError.eof) := by
  induction chunks with
  | nil => rfl
  | cons c cs ih =>
    have hc : ¬ c.isEmpty = true := by
      simpa using h c (by simp)
    simp only [List.map_cons, List.cons_append, copyWithCtx, if_neg hc, List.append_eq]
    rw [ih (fun d hd => h d (List.mem_cons_of_mem _ hd))]
    simp [List.flatten]

/-- Witness for `copyWithCtx_eof_returns_eof`: two chunks then EOF copy the
three bytes and surface `io.EOF`. -/
theorem copyWithCtx_eof_returns_eof_witness :
    copyWithCtx [([97], none), ([98, 99], none), ([], some IOError.eof)] [none, none] =
      some ([97, 98, 99], IOError.eof) := by
  have h := copyWithCtx_eof_returns_eof [[97], [98, 99]] (by decide)
  simpa using h

/-! ## Config loading (src/core/config/config.go `Config.loadProxies`,
`Config.GetProxy`)

The YAML document's `proxies` map is modelled as the list of its entries in
Go's (arbitrary) iteration order, each domain already split into its label
list.  Whether a rewrite's `from` pattern compiles (`regexp.Compile`) is
abstracted by the predicate `regexCompiles`. -/

/-- `config.RouteConfig`: the fields `loadProxies` validates. -/
structure RouteConfigM where
  pattern : String
  target : String
  rewriteFrom : Option String
  deriving DecidableEq

/-- `config.ProxyConfig`: the fields `loadProxies` validates. -/
structure ProxyConfigM where
  target : String
  routes : List RouteConfigM
  deriving DecidableEq

/-- The part of `config.Proxy` stored in the trie that `GetProxy` hands to
its callers (default target and route list). -/
structure ProxyM where
  target : String
  routes : List RouteConfigM
  deriving DecidableEq

/-- The per-route validation of `loadProxies`: an empty route target, or a
rewrite rule with a non-empty `from` that fails to compile, aborts the
load with an error; routes are checked in order. -/
def firstRouteError (regexCompiles : String → Bool) : List RouteConfigM → Option String
  | [] => none
  | r :: rest =>
    if r.target = "" then some ("empty target for route " ++ r.pattern)
    else
      match r.rewriteFrom with
      | some f =>
        if f ≠ "" ∧ regexCompiles f = false then
          some ("invalid regex " ++ f)
        else firstRouteError regexCompiles rest
      | none => firstRouteError regexCompiles rest

/-- `Config.loadProxies`: for each entry in iteration order — reject an
empty proxy target, validate the routes, then insert the built proxy into
the trie and continue.  A failure returns immediately, keeping every entry
inserted so far (the Go method mutates `c.Proxies` in place), which is what
C10 observes. -/
def loadProxies (regexCompiles : String → Bool) :
    TrieN ProxyM → List (List String × ProxyConfigM) → TrieN ProxyM × Option String
  | trie, [] => (trie, none)
  | trie, (domain, pc) :: rest =>
    if pc.target = "" then (trie, some "empty target for domain")
    else
      match firstRouteError regexCompiles pc.routes with
      | some e => (trie, some e)
      | none =>
        loadProxies regexCompiles (trieSet trie domain ⟨pc.target, pc.routes⟩) rest

/-- `Config.GetProxy`: look the domain up in the trie. -/
def getProxy (trie : TrieN ProxyM) (domain : List String) : Option ProxyM :=
  trieGet trie domain

/-- C10: config loading is not atomic — on a document whose first entry
(`app.com`, valid) precedes a second entry (`bad.com`, empty target),
`loadProxies` returns an error, yet `app.com` was already inserted and
`GetProxy` still retrieves it after the failed load. -/
theorem loadProxies_not_atomic :
    (loadProxies (fun _ => true) (TrieN.node [] none)
        [(["app", "com"], ⟨"10.0.0.1:80", []⟩), (["bad", "com"], ⟨"", []⟩)]).2 =
      some "empty target for domain" ∧
    getProxy (loadProxies (fun _ => true) (TrieN.node [] none)
        [(["app", "com"], ⟨"10.0.0.1:80", []⟩), (["bad", "com"], ⟨"", []⟩)]).1
        ["app", "com"] =
      some ⟨"10.0.0.1:80", []⟩ := by
  constructor
  · rfl
  · rfl

end Tcprp
